import Mathlib

/-!
Shallow embedding of `src/google_maps_key_tester.py`.

Network interaction is abstracted by a `RequestOutcome` per probe:
`raised msg` models `requests.get` (or any other statement in the `try`
block) raising a transport-level exception; `responded none` models a
response whose body makes `r.json()` raise (body not parseable as JSON) --
note that `data = r.json()` sits inside the `try` block of `test_key`, so
this lands in the same generic `except` handler; `responded (some b)`
models a successfully decoded JSON body, with `b.statusField` the optional
top-level "status" field read by `data.get("status", "ERROR")`.
Wall-clock elapsed times and the rich-console rendering (table, colors,
preview column) are presentation-only and not modelled.
-/

namespace MapsKeyTester

/-- Classification of one probe, mirroring the branch structure of the
`try`/`except` body of `test_key` (ENABLED / DENIED / RATE LIMITED /
DISABLED rows, plus the ERROR row of the `except` handler). -/
inductive Classification where
  | enabled
  | denied
  | rateLimited
  | disabled
  | error
  deriving DecidableEq

/-- The decoded JSON body. Only its optional top-level "status" field is
consumed by the classification logic (`data.get("status", "ERROR")`); the
rest of the body only feeds the presentation-only preview column. -/
structure JsonBody where
  statusField : Option String
  deriving DecidableEq

/-- Outcome of one `requests.get` + `r.json()` attempt, see module header. -/
inductive RequestOutcome where
  | raised (msg : String)
  | responded (body : Option JsonBody)
  deriving DecidableEq

/-- The fixed `ENDPOINTS` list of (name, URL template) pairs. -/
def ENDPOINTS : List (String × String) := [
  ("PlacesATM", "https://maps.googleapis.com/maps/api/place/textsearch/json?query=atm+near+melbourne&key={key}"),
  ("Geocoding", "https://maps.googleapis.com/maps/api/geocode/json?address=New+York&key={key}"),
  ("ReverseGeocoding", "https://maps.googleapis.com/maps/api/geocode/json?latlng=40.7128,-74.0060&key={key}"),
  ("PlacesNearby", "https://maps.googleapis.com/maps/api/place/nearbysearch/json?location=40.7128,-74.0060&radius=500&type=restaurant&key={key}"),
  ("PlacesTextSearch", "https://maps.googleapis.com/maps/api/place/textsearch/json?query=pizza+in+New+York&key={key}"),
  ("PlacesDetails", "https://maps.googleapis.com/maps/api/place/details/json?place_id=ChIJOwg_06VPwokRYv534QaPC8g&key={key}"),
  ("Directions", "https://maps.googleapis.com/maps/api/directions/json?origin=New+York,NY&destination=Boston,MA&key={key}"),
  ("DistanceMatrix", "https://maps.googleapis.com/maps/api/distancematrix/json?origins=New+York,NY&destinations=Boston,MA&key={key}"),
  ("TimeZone", "https://maps.googleapis.com/maps/api/timezone/json?location=40.7128,-74.0060&timestamp=1458000000&key={key}"),
  ("Elevation", "https://maps.googleapis.com/maps/api/elevation/json?locations=40.714728,-73.998672&key={key}"),
  ("StaticMap", "https://maps.googleapis.com/maps/api/staticmap?center=New+York,NY&zoom=13&size=600x300&maptype=roadmap&key={key}"),
  ("StreetView", "https://maps.googleapis.com/maps/api/streetview?size=600x300&location=40.720032,-73.988354&heading=151.78&pitch=-0.76&key={key}"),
  ("Autocomplete", "https://maps.googleapis.com/maps/api/place/autocomplete/json?input=Empire%20State&key={key}")]

/-- `url.format(key=key)`: substitute the key into the URL template. -/
def formatUrl (url key : String) : String :=
  url.replace "{key}" key

/-- One iteration of the `for name, url in ENDPOINTS` loop body, given the
outcome of the network attempt: returns the classification (which table row
was added and which counter was bumped) together with the status string
appended to the `results` row (`"ERROR"` in the `except` handler, otherwise
the value of `status = data.get("status", "ERROR")`). -/
def probeOne (o : RequestOutcome) : Classification × String :=
  match o with
  | RequestOutcome.raised _ => (Classification.error, "ERROR")
  | RequestOutcome.responded none => (Classification.error, "ERROR")
  | RequestOutcome.responded (some body) =>
    let status := body.statusField.getD "ERROR"
    if status = "OK" ∨ status = "ZERO_RESULTS" then (Classification.enabled, status)
    else if status = "REQUEST_DENIED" then (Classification.denied, status)
    else if status = "OVER_QUERY_LIMIT" then (Classification.rateLimited, status)
    else (Classification.disabled, status)

/-- One recorded probe: endpoint name, classification, and the status
string of the corresponding `results` row (`[key, name, status, elapsed]`;
the key is stored once in `KeyReport`, elapsed is wall-clock and
unmodelled). -/
structure ProbeRec where
  endpoint : String
  cls : Classification
  rowStatus : String
  deriving DecidableEq

/-- The endpoint loop of `test_key`: walks the endpoint list, feeding the
`i`-th network outcome `net i` to the loop body, and accumulates the
`results` list (in loop order) and the `enabled_count` / `disabled_count`
counters (the enabled branch bumps the first, every other branch including
the `except` handler bumps the second). -/
def sweep (net : Nat → RequestOutcome) : Nat → List (String × String) → List ProbeRec × Nat × Nat
  | _, [] => ([], 0, 0)
  | i, ep :: rest =>
    let pr := probeOne (net i)
    let tail := sweep net (i + 1) rest
    (⟨ep.1, pr.1, pr.2⟩ :: tail.1,
      (if pr.1 = Classification.enabled then tail.2.1 + 1 else tail.2.1),
      (if pr.1 = Classification.enabled then tail.2.2 else tail.2.2 + 1))

/-- Per-key report assembled by `test_key`. -/
structure KeyReport where
  key : String
  results : List ProbeRec
  enabledCount : Nat
  disabledCount : Nat
  deriving DecidableEq

/-- `test_key(key)` with the network abstracted: probe every endpoint of
`ENDPOINTS` in order, the `i`-th probe receiving outcome `net i`. -/
def test_key (key : String) (net : Nat → RequestOutcome) : KeyReport :=
  ⟨key, (sweep net 0 ENDPOINTS).1, (sweep net 0 ENDPOINTS).2.1, (sweep net 0 ENDPOINTS).2.2⟩

/-- The summary verdict string: `'VALID' if enabled_count > 0 else 'INVALID'`. -/
def summaryVerdict (enabledCount : Nat) : String :=
  if enabledCount > 0 then "VALID" else "INVALID"

/-- The rows written by the CSV export: the header row followed by one row
per entry of `results`, in order (the elapsed column is wall-clock and
unmodelled). -/
def csvRows (r : KeyReport) : List (List String) :=
  ["API Key", "Endpoint", "Status"] :: r.results.map (fun p => [r.key, p.endpoint, p.rowStatus])

/-- The key alphabet `[0-9A-Za-z_\-]` of both regexes. -/
def isKeyChar (c : Char) : Bool :=
  c.isAlphanum || c = '_' || c = '-'

/-- Does the regex `AIza[0-9A-Za-z_\-]{35}` match at the start of `l`?
(Literal `AIza`, then exactly 35 key-alphabet characters must be present.) -/
def matchesAt (l : List Char) : Bool :=
  (l.take 4 == ['A', 'I', 'z', 'a']) && (((l.drop 4).take 35).length == 35)
    && ((l.drop 4).take 35).all isKeyChar

/-- Fuel-indexed scanner behind `findAll`; the fuel only forces structural
termination and is irrelevant whenever it is at least the text length. -/
def findAllGo : Nat → List Char → List (List Char)
  | 0, _ => []
  | _, [] => []
  | fuel + 1, c :: cs =>
    if matchesAt (c :: cs) then (c :: cs).take 39 :: findAllGo fuel ((c :: cs).drop 39)
    else findAllGo fuel cs

/-- `re.findall(r"AIza[0-9A-Za-z_\-]{35}", text)`: leftmost, non-overlapping
matches of the (fixed-length, 39-character) pattern; after a match the scan
resumes right after it, otherwise it advances one character. -/
def findAll (l : List Char) : List (List Char) :=
  findAllGo l.length l

/-- A whole string of exactly the key shape: `AIza` + exactly 35
key-alphabet characters (39 characters in all). -/
def isKeyShape (l : List Char) : Bool :=
  (l.length == 39) && matchesAt l

/-- The pure part of `extract_keys_from_file`, applied to the file's text:
`sorted(set(re.findall(r"AIza[0-9A-Za-z_\-]{35}", text)))`, i.e. the
deduplicated matches in lexicographic order. -/
def extract_keys_from_file (text : String) : List String :=
  List.insertionSort (fun a b => a ≤ b) (((findAll text.data).map String.mk).dedup)

/-- `re.match(r"^AIza[0-9A-Za-z_\-]{35}$", arg)` is truthy: the whole
argument has the key shape (Python's `$` also tolerates one trailing
newline). -/
def anchoredKeyMatch (s : String) : Bool :=
  isKeyShape s.data || (isKeyShape s.data.dropLast && s.data.getLast? == some '\n')

/-- `arg.endswith(".txt")`. -/
def endsWithTxt (s : String) : Bool :=
  List.isSuffixOf ".txt".data s.data

/-- What the `__main__` block does with a given argument vector. -/
inductive MainResult where
  | helpShown
  | singleTested (key : String) (csv : Bool)
  | bulkTested (keys : List String) (csv : Bool)
  | noKeysFound
  | invalidInput
  deriving DecidableEq

/-- The `__main__` dispatch, with the bulk file's contents supplied as
`fileText` (file I/O abstracted). `argv` is the full `sys.argv`, program
name included. -/
def mainDispatch (argv : List String) (fileText : String) : MainResult :=
  match argv with
  | [] => MainResult.helpShown
  | [_] => MainResult.helpShown
  | _ :: arg :: _ =>
    if arg = "-h" ∨ arg = "--help" then MainResult.helpShown
    else
      let csv := "--csv" ∈ argv
      if anchoredKeyMatch arg then MainResult.singleTested arg csv
      else if endsWithTxt arg then
        let keys := extract_keys_from_file fileText
        if keys = [] then MainResult.noKeysFound
        else MainResult.bulkTested keys csv
      else MainResult.invalidInput

/-- The process exit code for each `__main__` outcome: `sys.exit(0)` after
help, `sys.exit(1)` when a bulk file yields no keys, and falling off the
end of the script (exit 0) in every other case -- including the
invalid-input branch, which only prints a message. -/
def exitCode : MainResult → Nat
  | MainResult.noKeysFound => 1
  | _ => 0

/-- Modelled from the spec: the classification table of §4.2, as a function
of the (defaulted) top-level status string, for comparison with the code's
`probeOne`. -/
def specClassification (status : String) : Classification :=
  if status = "OK" ∨ status = "ZERO_RESULTS" then Classification.enabled
  else if status = "REQUEST_DENIED" then Classification.denied
  else if status = "OVER_QUERY_LIMIT" then Classification.rateLimited
  else Classification.disabled

/-- Each key duplicated `M` times, in order (the "N keys, duplicated M
times each" of the spec's round-trip property). -/
def dupEach (M : Nat) : List String → List String
  | [] => []
  | k :: ks => List.replicate M k ++ dupEach M ks

/-- Text built from alternating (noise, key-occurrence) blocks followed by
a final noise block: the "keys embedded in surrounding noise" of the
round-trip property. -/
def embedText : List (List Char × List Char) → List Char → List Char
  | [], fin => fin
  | p :: ps, fin => p.1 ++ p.2 ++ embedText ps fin

/-- A network where every probe raises (e.g. every call times out). -/
def netW : Nat → RequestOutcome := fun _ => RequestOutcome.raised "timed out"

/-- A syntactically valid sample key: `AIza` + 35 `b`s. -/
def keyW1 : String := ⟨'A' :: 'I' :: 'z' :: 'a' :: List.replicate 35 'b'⟩

/-- A second syntactically valid sample key: `AIza` + 35 `c`s. -/
def keyW2 : String := ⟨'A' :: 'I' :: 'z' :: 'a' :: List.replicate 35 'c'⟩

/-- A sample key list, deliberately not in sorted order. -/
def ksW : List String := [keyW2, keyW1]

/-- Sample noise blocks, none containing the character `A`. -/
def nsW : List (List Char) := [[' '], ['x', ' '], [' ', 'y'], [' ']]

/-- A sample final noise block. -/
def finW : List Char := [' ', 'e', 'n', 'd']

lemma sweep_map_endpoint (net : Nat → RequestOutcome) :
    ∀ (eps : List (String × String)) (i : Nat),
      ((sweep net i eps).1).map ProbeRec.endpoint = eps.map Prod.fst := by
  intro eps
  induction eps with
  | nil => intro i; rfl
  | cons ep rest ih => intro i; simp [sweep, ih]

lemma sweep_counts (net : Nat → RequestOutcome) :
    ∀ (eps : List (String × String)) (i : Nat),
      (sweep net i eps).2.1 + (sweep net i eps).2.2 = eps.length := by
  intro eps
  induction eps with
  | nil => intro i; rfl
  | cons ep rest ih =>
    intro i
    simp only [sweep, List.length_cons]
    by_cases h : (probeOne (net i)).1 = Classification.enabled <;>
      simp only [h, if_true, if_false, ite_true, ite_false] <;>
      rw [← ih (i + 1)] <;> omega

lemma sweep_counts_eq (net : Nat → RequestOutcome) :
    ∀ (eps : List (String × String)) (i : Nat),
      (sweep net i eps).2.1
          = ((sweep net i eps).1).countP (fun pr => pr.cls == Classification.enabled)
        ∧ (sweep net i eps).2.2
          = ((sweep net i eps).1).countP (fun pr => !(pr.cls == Classification.enabled)) := by
  intro eps
  induction eps with
  | nil => intro i; exact ⟨rfl, rfl⟩
  | cons ep rest ih =>
    intro i
    simp only [sweep, List.countP_cons]
    by_cases h : (probeOne (net i)).1 = Classification.enabled
    · simp [h, (ih (i + 1)).1, (ih (i + 1)).2]
    · simp [h, (ih (i + 1)).1, (ih (i + 1)).2]

lemma sweep_getElem (net : Nat → RequestOutcome) :
    ∀ (eps : List (String × String)) (i j : Nat),
      ((sweep net i eps).1)[j]? =
        eps[j]?.map
          (fun ep => (⟨ep.1, (probeOne (net (i + j))).1, (probeOne (net (i + j))).2⟩ : ProbeRec)) := by
  intro eps
  induction eps with
  | nil => intro i j; simp [sweep]
  | cons ep rest ih =>
    intro i j
    cases j with
    | zero => simp [sweep]
    | succ j =>
      simp only [sweep, List.getElem?_cons_succ]
      rw [ih (i + 1) j]
      have hij : i + 1 + j = i + (j + 1) := by omega
      rw [hij]

lemma findAllGo_nil (fuel : Nat) : findAllGo fuel [] = [] := by
  cases fuel <;> rfl

lemma findAllGo_congr :
    ∀ (f₁ : Nat) (l : List Char) (f₂ : Nat), l.length ≤ f₁ → l.length ≤ f₂ →
      findAllGo f₁ l = findAllGo f₂ l := by
  intro f₁
  induction f₁ with
  | zero =>
    intro l f₂ h1 _
    have hl : l = [] := List.eq_nil_of_length_eq_zero (by omega)
    subst hl
    rw [findAllGo_nil, findAllGo_nil]
  | succ f ih =>
    intro l f₂ h1 h2
    cases l with
    | nil => rw [findAllGo_nil, findAllGo_nil]
    | cons c cs =>
      cases f₂ with
      | zero => simp only [List.length_cons] at h2; omega
      | succ g =>
        simp only [List.length_cons] at h1 h2
        simp only [findAllGo]
        have hd : ((c :: cs).drop 39).length = cs.length + 1 - 39 := by
          simp [List.length_drop]
        by_cases hm : matchesAt (c :: cs) = true
        · rw [if_pos hm, if_pos hm]
          congr 1
          exact ih _ g (by rw [hd]; omega) (by rw [hd]; omega)
        · rw [if_neg hm, if_neg hm]
          exact ih cs g (by omega) (by omega)

lemma findAll_nil : findAll [] = [] := rfl

lemma findAll_cons_of_match (c : Char) (cs : List Char) (h : matchesAt (c :: cs) = true) :
    findAll (c :: cs) = (c :: cs).take 39 :: findAll ((c :: cs).drop 39) := by
  show findAllGo (c :: cs).length (c :: cs) = _
  simp only [List.length_cons, findAllGo]
  rw [if_pos h]
  congr 1
  exact findAllGo_congr cs.length _ _
    (by simp only [List.length_drop, List.length_cons]; omega) (le_refl _)

lemma findAll_cons_of_not_match (c : Char) (cs : List Char) (h : matchesAt (c :: cs) = false) :
    findAll (c :: cs) = findAll cs := by
  show findAllGo (c :: cs).length (c :: cs) = _
  simp only [List.length_cons, findAllGo]
  rw [if_neg (by simp [h])]
  rfl

lemma matchesAt_eq_false_of_head (c : Char) (cs : List Char) (hc : c ≠ 'A') :
    matchesAt (c :: cs) = false := by
  have h4 : ((c :: cs).take 4 == ['A', 'I', 'z', 'a']) = false := by
    simp [List.take_succ_cons, hc]
  simp only [matchesAt, h4, Bool.false_and]

lemma matchesAt_eq_false_of_short (l : List Char) (h : l.length < 39) :
    matchesAt l = false := by
  have hlen : ((((l.drop 4).take 35).length : Nat) == 35) = false := by
    simp [List.length_take, List.length_drop]
    omega
  simp only [matchesAt, hlen, Bool.and_false, Bool.false_and]

lemma findAll_of_short (l : List Char) (h : l.length < 39) : findAll l = [] := by
  induction l with
  | nil => exact findAll_nil
  | cons c cs ih =>
    rw [findAll_cons_of_not_match c cs (matchesAt_eq_false_of_short _ h)]
    exact ih (by simp only [List.length_cons] at h; omega)

lemma isKeyShape_length (k : List Char) (h : isKeyShape k = true) : k.length = 39 := by
  simp [isKeyShape] at h
  exact h.1

lemma isKeyShape_matchesAt (k : List Char) (h : isKeyShape k = true) : matchesAt k = true := by
  simp [isKeyShape] at h
  exact h.2

lemma matchesAt_append_of_shape (k rest : List Char) (hk : isKeyShape k = true) :
    matchesAt (k ++ rest) = true := by
  have hlen := isKeyShape_length k hk
  have hm := isKeyShape_matchesAt k hk
  have h4 : (k ++ rest).take 4 = k.take 4 := by
    rw [List.take_append_eq_append_take]
    simp [hlen]
  have hd : (k ++ rest).drop 4 = k.drop 4 ++ rest := by
    rw [List.drop_append_eq_append_drop]
    simp [hlen]
  have hdlen : (k.drop 4).length = 35 := by
    simp [hlen]
  have hd35 : ((k ++ rest).drop 4).take 35 = k.drop 4 := by
    rw [hd]
    exact List.take_left' hdlen
  have hk35 : (k.drop 4).take 35 = k.drop 4 := by
    rw [← hdlen, List.take_length]
  simp only [matchesAt, Bool.and_eq_true] at hm
  obtain ⟨⟨hma, _⟩, hmc⟩ := hm
  rw [hk35] at hmc
  simp only [matchesAt, Bool.and_eq_true]
  refine ⟨⟨by rw [h4]; exact hma, by rw [hd35, hdlen]; rfl⟩, by rw [hd35]; exact hmc⟩

lemma findAll_key_cons (k rest : List Char) (hk : isKeyShape k = true) :
    findAll (k ++ rest) = k :: findAll rest := by
  have hlen := isKeyShape_length k hk
  obtain ⟨c, cs, rfl⟩ : ∃ c cs, k = c :: cs := by
    cases k with
    | nil => simp at hlen
    | cons c cs => exact ⟨c, cs, rfl⟩
  rw [List.cons_append, findAll_cons_of_match c (cs ++ rest)
    (by rw [← List.cons_append]; exact matchesAt_append_of_shape _ rest hk)]
  rw [← List.cons_append, List.take_left' hlen, List.drop_left' hlen]

lemma findAll_noise_prefix (n rest : List Char) (hn : ∀ c ∈ n, c ≠ 'A') :
    findAll (n ++ rest) = findAll rest := by
  induction n with
  | nil => simp
  | cons c n2 ih =>
    rw [List.cons_append,
      findAll_cons_of_not_match _ _ (matchesAt_eq_false_of_head _ _ (hn c (by simp)))]
    exact ih (fun c hc => hn c (by simp [hc]))

lemma findAll_embedText (ps : List (List Char × List Char)) (fin : List Char)
    (hp : ∀ p ∈ ps, (∀ c ∈ p.1, c ≠ 'A') ∧ isKeyShape p.2 = true)
    (hfin : ∀ c ∈ fin, c ≠ 'A') :
    findAll (embedText ps fin) = ps.map Prod.snd := by
  induction ps with
  | nil =>
    show findAll fin = []
    have h := findAll_noise_prefix fin [] hfin
    rw [List.append_nil] at h
    rw [h, findAll_nil]
  | cons p ps ih =>
    show findAll (p.1 ++ p.2 ++ embedText ps fin) = p.2 :: ps.map Prod.snd
    rw [List.append_assoc,
      findAll_noise_prefix _ _ (hp p (List.mem_cons_self p ps)).1,
      findAll_key_cons _ _ (hp p (List.mem_cons_self p ps)).2,
      ih (fun q hq => hp q (List.mem_cons_of_mem p hq))]

lemma mem_dupEach (M : Nat) (ks : List String) (s : String) (hM : 0 < M) :
    s ∈ dupEach M ks ↔ s ∈ ks := by
  induction ks with
  | nil => simp [dupEach]
  | cons k ks ih =>
    simp [dupEach, List.mem_replicate, ih, Nat.pos_iff_ne_zero.mp hM]

lemma summaryVerdict_iff (e : Nat) :
    (summaryVerdict e = "VALID" ↔ 0 < e) ∧ (summaryVerdict e = "INVALID" ↔ e = 0) := by
  by_cases h : e > 0
  · rw [summaryVerdict, if_pos h]
    constructor
    · exact ⟨fun _ => h, fun _ => rfl⟩
    · exact ⟨fun hv => absurd hv (by decide), fun h0 => by omega⟩
  · have h0 : e = 0 := by omega
    rw [summaryVerdict, if_neg h]
    constructor
    · exact ⟨fun hv => absurd hv (by decide), fun hp => absurd hp h⟩
    · exact ⟨fun _ => h0, fun _ => rfl⟩

/-- C1 (counterexample): a probe whose response body is not parseable as
JSON (`r.json()` raises, modelled by `responded none`) is NOT classified
Disabled, contrary to the claim. -/
theorem c1_counterexample :
    (probeOne (RequestOutcome.responded none)).1 ≠ Classification.disabled := by
  decide

/-- C1 (amended): a probe whose response body is not parseable as JSON is
classified Error -- `data = r.json()` sits inside the `try` block, so the
decode failure lands in the same generic `except` handler as transport
failures -- and it is not fatal (it yields a classified result like any
other probe). The default status string "ERROR" yielding Disabled applies
only to a parseable body that lacks a "status" field. -/
theorem c1_parse_error_is_error :
    (probeOne (RequestOutcome.responded none)).1 = Classification.error
    ∧ (∀ msg, (probeOne (RequestOutcome.raised msg)).1 = Classification.error)
    ∧ (probeOne (RequestOutcome.responded (some ⟨none⟩))).1 = Classification.disabled := by
  exact ⟨rfl, fun _ => rfl, by decide⟩

/-- C2 (counterexample): on the single argument "zzz" (which neither
matches the anchored key pattern nor ends in ".txt") the program reports
invalid input but the process exit code is 0, not the claimed non-zero. -/
theorem c2_counterexample :
    mainDispatch ["prog", "zzz"] "" = MainResult.invalidInput
    ∧ exitCode (mainDispatch ["prog", "zzz"] "") = 0 := by
  exact ⟨rfl, rfl⟩

/-- C2 (amended): for every single command-line argument that neither
matches the anchored key pattern nor ends in ".txt" (and is not a help
flag), the process reports an invalid-input error but terminates with exit
code 0: the `else` branch only prints the message and never calls
`sys.exit`, so the script falls off the end. -/
theorem c2_invalid_input_exit_zero (a arg : String) (rest : List String) (ftext : String)
    (h1 : anchoredKeyMatch arg = false) (h2 : endsWithTxt arg = false)
    (h3 : arg ≠ "-h") (h4 : arg ≠ "--help") :
    mainDispatch (a :: arg :: rest) ftext = MainResult.invalidInput
    ∧ exitCode (mainDispatch (a :: arg :: rest) ftext) = 0 := by
  have hm : mainDispatch (a :: arg :: rest) ftext = MainResult.invalidInput := by
    simp [mainDispatch, h1, h2, h3, h4]
  exact ⟨hm, by rw [hm]; rfl⟩

/-- C2 (witness): the amended theorem applied to the concrete argument
vector `["prog", "nokey", "--csv"]`. -/
theorem c2_witness :
    (anchoredKeyMatch "nokey" = false ∧ endsWithTxt "nokey" = false
      ∧ "nokey" ≠ "-h" ∧ "nokey" ≠ "--help")
    ∧ (mainDispatch ["prog", "nokey", "--csv"] "" = MainResult.invalidInput
       ∧ exitCode (mainDispatch ["prog", "nokey", "--csv"] "") = 0) :=
  ⟨by decide,
    c2_invalid_input_exit_zero "prog" "nokey" ["--csv"] "" (by decide) (by decide)
      (by decide) (by decide)⟩

/-- C3: for every key and every assignment of per-endpoint network
outcomes, the report's `results` has exactly one entry per catalog
endpoint, in catalog order, and a probe whose call raises is recorded as an
Error-classified result rather than omitted. -/
theorem c3_results_complete (key : String) (net : Nat → RequestOutcome) :
    (test_key key net).results.length = ENDPOINTS.length
    ∧ (test_key key net).results.map ProbeRec.endpoint = ENDPOINTS.map Prod.fst
    ∧ ∀ j msg, net j = RequestOutcome.raised msg →
        ((test_key key net).results.map ProbeRec.cls)[j]?
          = ENDPOINTS[j]?.map (fun _ => Classification.error) := by
  refine ⟨?_, ?_, ?_⟩
  · have h := congrArg List.length (sweep_map_endpoint net ENDPOINTS 0)
    simpa [test_key] using h
  · simpa [test_key] using sweep_map_endpoint net ENDPOINTS 0
  · intro j msg hj
    show ((sweep net 0 ENDPOINTS).1.map ProbeRec.cls)[j]? = _
    rw [List.getElem?_map, sweep_getElem net ENDPOINTS 0 j]
    cases h : ENDPOINTS[j]? with
    | none => simp
    | some ep => simp [Nat.zero_add, hj, probeOne]

/-- C3 (witness): with every probe raising, the first recorded result is
Error-classified. -/
theorem c3_witness :
    ((test_key "k" netW).results.map ProbeRec.cls)[0]?
      = ENDPOINTS[0]?.map (fun _ => Classification.error) :=
  (c3_results_complete "k" netW).2.2 0 "timed out" rfl

/-- C4: after evaluating any key under any per-endpoint outcomes,
`enabledCount + disabledCount` equals the catalog size: every probe bumps
exactly one of the two counters -- Enabled probes are counted by
`enabledCount` and every other classification (Denied, RateLimited,
Disabled, Error) by `disabledCount`. -/
theorem c4_counts_sum (key : String) (net : Nat → RequestOutcome) :
    (test_key key net).enabledCount + (test_key key net).disabledCount = ENDPOINTS.length
    ∧ (test_key key net).enabledCount
        = ((test_key key net).results).countP (fun pr => pr.cls == Classification.enabled)
    ∧ (test_key key net).disabledCount
        = ((test_key key net).results).countP (fun pr => !(pr.cls == Classification.enabled)) := by
  refine ⟨by simpa [test_key] using sweep_counts net ENDPOINTS 0, ?_, ?_⟩
  · simpa [test_key] using (sweep_counts_eq net ENDPOINTS 0).1
  · simpa [test_key] using (sweep_counts_eq net ENDPOINTS 0).2

/-- C5: for every parsed response the classification is exactly the spec's
table applied to the defaulted top-level status field, and every raised
transport exception is classified Error. -/
theorem c5_classification_policy :
    (∀ body : JsonBody,
      (probeOne (RequestOutcome.responded (some body))).1
        = specClassification (body.statusField.getD "ERROR"))
    ∧ (∀ msg, (probeOne (RequestOutcome.raised msg)).1 = Classification.error) := by
  constructor
  · intro body
    simp only [probeOne, specClassification, apply_ite Prod.fst]
  · intro msg
    rfl

/-- C6: the summary verdict is derived solely from `enabledCount`: the key
is judged VALID iff `enabledCount > 0` and INVALID iff `enabledCount = 0`. -/
theorem c6_verdict_iff (key : String) (net : Nat → RequestOutcome) :
    (summaryVerdict (test_key key net).enabledCount = "VALID"
      ↔ 0 < (test_key key net).enabledCount)
    ∧ (summaryVerdict (test_key key net).enabledCount = "INVALID"
      ↔ (test_key key net).enabledCount = 0) :=
  summaryVerdict_iff _

/-- C10: a probe whose HTTP call raises records the literal row status
"ERROR" -- the same string the default `data.get("status", "ERROR")`
produces for a parsed body with no status field -- so the two cases are
indistinguishable in the exported CSV rows. -/
theorem c10_error_rows_indistinguishable (msg : String) :
    (probeOne (RequestOutcome.raised msg)).2 = "ERROR"
    ∧ (probeOne (RequestOutcome.responded (some ⟨none⟩))).2 = "ERROR"
    ∧ ∀ key name cls,
        csvRows ⟨key, [⟨name, cls, (probeOne (RequestOutcome.raised msg)).2⟩], 0, 1⟩
          = csvRows ⟨key, [⟨name, cls, (probeOne (RequestOutcome.responded (some ⟨none⟩))).2⟩], 0, 1⟩ := by
  refine ⟨rfl, by decide, fun key name cls => ?_⟩
  rfl

lemma matchesAt_AIza (cs : List Char) (h35 : 35 ≤ cs.length) (hall : cs.all isKeyChar = true) :
    matchesAt ('A' :: 'I' :: 'z' :: 'a' :: cs) = true := by
  have ht : ('A' :: 'I' :: 'z' :: 'a' :: cs).take 4 = ['A', 'I', 'z', 'a'] := rfl
  have hd : ('A' :: 'I' :: 'z' :: 'a' :: cs).drop 4 = cs := rfl
  simp only [matchesAt, ht, hd, Bool.and_eq_true, beq_iff_eq]
  refine ⟨⟨trivial, ?_⟩, ?_⟩
  · simp [List.length_take]
    omega
  · rw [List.all_eq_true] at hall ⊢
    exact fun x hx => hall x (List.take_subset 35 cs hx)

/-- C8 (counterexample): on `AIza` followed by 36 key-alphabet characters
the bulk-extraction regex DOES yield a match (the claim asserts it yields
none). -/
theorem c8_counterexample :
    findAll ('A' :: 'I' :: 'z' :: 'a' :: List.replicate 36 'b') ≠ [] := by
  decide

/-- C8 (amended): `AIza` + 34 key-alphabet characters yields no match;
`AIza` + 35 yields exactly that one key; and for `AIza` + 36 or more
key-alphabet characters the unanchored, length-exact regex still yields a
match, namely `AIza` plus the FIRST 35 characters (truncation), rather than
failing to match. -/
theorem c8_boundary (cs : List Char) (hall : cs.all isKeyChar = true) :
    (cs.length = 34 → findAll ('A' :: 'I' :: 'z' :: 'a' :: cs) = [])
    ∧ (cs.length = 35 →
        findAll ('A' :: 'I' :: 'z' :: 'a' :: cs) = ['A' :: 'I' :: 'z' :: 'a' :: cs])
    ∧ (36 ≤ cs.length →
        (findAll ('A' :: 'I' :: 'z' :: 'a' :: cs)).head?
          = some ('A' :: 'I' :: 'z' :: 'a' :: cs.take 35)) := by
  refine ⟨?_, ?_, ?_⟩
  · intro h34
    exact findAll_of_short _ (by simp [h34])
  · intro h35
    have hk : isKeyShape ('A' :: 'I' :: 'z' :: 'a' :: cs) = true := by
      simp only [isKeyShape, Bool.and_eq_true]
      exact ⟨by simp [h35], matchesAt_AIza cs (by omega) hall⟩
    have h := findAll_key_cons ('A' :: 'I' :: 'z' :: 'a' :: cs) [] hk
    rw [List.append_nil] at h
    rw [h, findAll_nil]
  · intro h36
    rw [findAll_cons_of_match _ _ (matchesAt_AIza cs (by omega) hall)]
    simp [List.take_succ_cons]

/-- C8 (witness): the amended theorem applied to 36 `b`s. -/
theorem c8_witness :
    ((List.replicate 36 'b').all isKeyChar = true)
    ∧ (((List.replicate 36 'b').length = 34 →
          findAll ('A' :: 'I' :: 'z' :: 'a' :: List.replicate 36 'b') = [])
       ∧ ((List.replicate 36 'b').length = 35 →
          findAll ('A' :: 'I' :: 'z' :: 'a' :: List.replicate 36 'b')
            = ['A' :: 'I' :: 'z' :: 'a' :: List.replicate 36 'b'])
       ∧ (36 ≤ (List.replicate 36 'b').length →
          (findAll ('A' :: 'I' :: 'z' :: 'a' :: List.replicate 36 'b')).head?
            = some ('A' :: 'I' :: 'z' :: 'a' :: (List.replicate 36 'b').take 35))) :=
  ⟨by decide, c8_boundary (List.replicate 36 'b') (by decide)⟩

/-- C7 (counterexample): one syntactically valid key embedded in arbitrary
noise is NOT always returned: prefixing the noise text `AIza` makes the
unanchored scan consume `AIza` + the first 35 following alphabet characters
(which reach into the real key), so extraction returns a single wrong key
instead of the embedded one. -/
theorem c7_counterexample :
    isKeyShape ('A' :: 'I' :: 'z' :: 'a' :: List.replicate 35 '0') = true
    ∧ extract_keys_from_file
        ⟨'A' :: 'I' :: 'z' :: 'a' :: 'A' :: 'I' :: 'z' :: 'a' :: List.replicate 35 '0'⟩
      ≠ [String.mk ('A' :: 'I' :: 'z' :: 'a' :: List.replicate 35 '0')] := by
  decide

/-- C7 (amended): for any list of syntactically valid keys, each duplicated
`M ≥ 1` times and embedded between noise blocks that contain no `A`
character (so the noise can neither contain nor merge into a key-pattern
match), extraction returns exactly the distinct keys in lexicographically
sorted order; extraction is a pure function of the text, hence
deterministic. -/
theorem c7_roundtrip_separated (ks : List String) (M : Nat) (ns : List (List Char))
    (fin : List Char)
    (hM : 0 < M)
    (hns : ∀ n ∈ ns, ∀ c ∈ n, c ≠ 'A')
    (hfin : ∀ c ∈ fin, c ≠ 'A')
    (hks : ∀ k ∈ ks, isKeyShape k.data = true)
    (hlen : (dupEach M ks).length ≤ ns.length) :
    extract_keys_from_file ⟨embedText (ns.zip ((dupEach M ks).map String.data)) fin⟩
      = List.insertionSort (fun a b => a ≤ b) ks.dedup := by
  have hpairs : ∀ p ∈ ns.zip ((dupEach M ks).map String.data),
      (∀ c ∈ p.1, c ≠ 'A') ∧ isKeyShape p.2 = true := by
    rintro ⟨n, o⟩ hp
    obtain ⟨hn, ho⟩ := List.of_mem_zip hp
    refine ⟨hns n hn, ?_⟩
    obtain ⟨s, hs, rfl⟩ := List.mem_map.mp ho
    exact hks s ((mem_dupEach M ks s hM).mp hs)
  have hzip : (ns.zip ((dupEach M ks).map String.data)).map Prod.snd
      = (dupEach M ks).map String.data :=
    List.map_snd_zip _ _ (by simpa using hlen)
  have hfa : findAll (String.mk
        (embedText (ns.zip ((dupEach M ks).map String.data)) fin)).data
      = (dupEach M ks).map String.data := by
    show findAll (embedText (ns.zip ((dupEach M ks).map String.data)) fin) = _
    rw [findAll_embedText _ _ hpairs hfin, hzip]
  have hmk : ((dupEach M ks).map String.data).map String.mk = dupEach M ks := by
    rw [List.map_map]
    have hid : (String.mk ∘ String.data) = id := funext fun s => rfl
    rw [hid, List.map_id]
  simp only [extract_keys_from_file]
  rw [hfa, hmk]
  refine List.eq_of_perm_of_sorted ?_ (List.sorted_insertionSort _ _)
    (List.sorted_insertionSort _ _)
  refine ((List.perm_insertionSort _ _).trans ?_).trans
    (List.perm_insertionSort _ _).symm
  refine (List.perm_ext_iff_of_nodup (List.nodup_dedup _) (List.nodup_dedup _)).mpr ?_
  intro a
  simp only [List.mem_dedup]
  exact mem_dupEach M ks a hM

/-- C7 (witness): two distinct keys, each duplicated twice, embedded in
`A`-free noise blocks: extraction returns the two keys, sorted and
deduplicated. -/
theorem c7_witness :
    (0 < 2 ∧ (∀ n ∈ nsW, ∀ c ∈ n, c ≠ 'A') ∧ (∀ c ∈ finW, c ≠ 'A')
      ∧ (∀ k ∈ ksW, isKeyShape k.data = true) ∧ (dupEach 2 ksW).length ≤ nsW.length)
    ∧ extract_keys_from_file ⟨embedText (nsW.zip ((dupEach 2 ksW).map String.data)) finW⟩
        = List.insertionSort (fun a b => a ≤ b) ksW.dedup :=
  ⟨by decide,
    c7_roundtrip_separated ksW 2 nsW finW (by decide) (by decide) (by decide)
      (by decide) (by decide)⟩

end MapsKeyTester
